import Mathlib

/-!
Shallow embedding of the resilience decorators of the `@eklabdev/bling`
library, together with proofs of the behavioural properties claimed by its
specification.  Each executable definition is translated directly from the
TypeScript source; timestamps are modelled as `Int` (JavaScript
`Date.now()` arithmetic), promise settlement as explicit values, and the
event-loop timer machinery as explicit pending-timer records.
-/

namespace Bling

/-! ### Circuit breaker (`CircuitBreaker` in `src/unnamed/part_002`)

The decorator closes over one mutable record
`{failures, state, lastFailureTime}` per decorated method.  A call first
checks the open state (lazily moving to half-open once
`now - lastFailureTime >= resetTimeout`), then runs the target; the
settlement of the target is the `outcome` argument below.  The
`onStateChange` notification callback is a pure side channel and is not
modelled. -/

inductive BreakerState where
  | closed
  | open_
  | halfOpen
deriving DecidableEq, Repr

structure CBOptions where
  failureThreshold : Nat
  resetTimeout : Int
deriving DecidableEq, Repr

structure CBState where
  failures : Nat
  state : BreakerState
  lastFailureTime : Int
deriving DecidableEq, Repr

/-- Initial state installed at wrap time:
`{failures: 0, state: 'closed', lastFailureTime: 0}`. -/
def cbInit : CBState := ⟨0, .closed, 0⟩

/-- Result of one wrapped call: short-circuited while open, or the
settlement of the underlying operation. -/
inductive CBResult (ε ρ : Type) where
  | rejectedOpen
  | ok (v : ρ)
  | err (e : ε)
deriving DecidableEq, Repr

/-- One call through the circuit-breaker wrapper.  `now` is `Date.now()`
at call time and `outcome` the settlement the underlying operation would
produce.  Mirrors `replacementMethod` together with `handleFailure`:
* while open and not yet past `resetTimeout`, reject without invoking;
* while open and past `resetTimeout`, move to half-open and proceed;
* success in half-open moves to closed and resets `failures` to 0,
  success in closed leaves the state untouched;
* failure increments `failures`, stamps `lastFailureTime := now` and opens
  the breaker once `failures >= failureThreshold`. -/
def cbStep (opts : CBOptions) (cs : CBState) (now : Int) (outcome : Except ε ρ) :
    CBState × CBResult ε ρ :=
  if cs.state = .open_ ∧ now - cs.lastFailureTime < opts.resetTimeout then
    (cs, .rejectedOpen)
  else
    let cs1 := if cs.state = .open_ then { cs with state := .halfOpen } else cs
    match outcome with
    | .ok v =>
      if cs1.state = .halfOpen then
        ({ cs1 with state := .closed, failures := 0 }, .ok v)
      else
        (cs1, .ok v)
    | .error e =>
      let cs2 := { cs1 with failures := cs1.failures + 1, lastFailureTime := now }
      if opts.failureThreshold ≤ cs2.failures then
        ({ cs2 with state := .open_ }, .err e)
      else
        (cs2, .err e)

/-- A sequence of calls, each given as `(Date.now(), settlement)`. -/
def cbRun (opts : CBOptions) : CBState → List (Int × Except ε ρ) →
    CBState × List (CBResult ε ρ)
  | cs, [] => (cs, [])
  | cs, (t, o) :: rest =>
    let s := cbStep opts cs t o
    let r := cbRun opts s.1 rest
    (r.1, s.2 :: r.2)

/-- Failing settlements in a call sequence. -/
def isErr : Except ε ρ → Bool
  | .error _ => true
  | .ok _ => false

example :
    (cbRun ⟨3, 100⟩ cbInit
      ([(0, .error "e1"), (1, .error "e2"), (2, .error "e3")] :
        List (Int × Except String String))).1 =
      ⟨3, .open_, 2⟩ := rfl

example :
    cbStep ⟨3, 100⟩ ⟨3, .open_, 2⟩ 50 (Except.ok (ε := String) "v") =
      (⟨3, .open_, 2⟩, .rejectedOpen) := rfl

example :
    cbStep ⟨3, 100⟩ ⟨3, .open_, 2⟩ 102 (Except.ok (ε := String) "v") =
      (⟨0, .closed, 2⟩, .ok "v") := rfl

/-! ### Retry (`Retry` in `src/unnamed/part_002`)

The source runs `execute` with a closed-over counter `attempts`,
incremented at the start of each iteration; on failure it re-invokes
while `attempts < maxRetries + 1`, calling `onRetry(error, attempts)`
before each re-invocation, and rethrows the last error on exhaustion.
Below `attempt` is the value of `attempts` inside the iteration and
`remaining = maxRetries + 1 - attempt` counts the re-invocations still
allowed, so the guard `attempts >= maxRetries + 1` becomes
`remaining = 0`.  The attempt outcomes are supplied as
`op : Nat → Except ε ρ` (indexed by attempt number); the result records
the final settlement, the number of invocations of the target and the
list of `onRetry (error, attemptNumber)` calls in order. -/

def retryGo (op : Nat → Except ε ρ) : Nat → Nat → Except ε ρ × Nat × List (ε × Nat)
  | attempt, 0 =>
    match op attempt with
    | .ok v => (.ok v, 1, [])
    | .error e => (.error e, 1, [])
  | attempt, r + 1 =>
    match op attempt with
    | .ok v => (.ok v, 1, [])
    | .error e =>
      let rest := retryGo op (attempt + 1) r
      (rest.1, rest.2.1 + 1, (e, attempt) :: rest.2.2)

/-- The wrapped call: the initial attempt is number 1, and up to
`maxRetries` re-invocations may follow. -/
def retryCall (maxRetries : Nat) (op : Nat → Except ε ρ) :
    Except ε ρ × Nat × List (ε × Nat) :=
  retryGo op 1 maxRetries

example :
    retryCall 2 (fun a => (Except.error ("f" ++ toString a) : Except String String)) =
      (.error "f3", 3, [("f1", 1), ("f2", 2)]) := rfl

example :
    retryCall 2 (fun a =>
      (if a = 2 then Except.ok "v" else .error ("f" ++ toString a) :
        Except String String)) =
      (.ok "v", 2, [("f1", 1)]) := rfl

/-! ### Circuit-breaker step lemmas -/

theorem cbStep_closed_ok (opts : CBOptions) (cs : CBState) (now : Int) (v : ρ)
    (h : cs.state = .closed) :
    cbStep (ε := ε) opts cs now (.ok v) = (cs, .ok v) := by
  simp [cbStep, h]

theorem cbStep_closed_err_lt (opts : CBOptions) (cs : CBState) (now : Int) (e : ε)
    (h : cs.state = .closed) (hlt : cs.failures + 1 < opts.failureThreshold) :
    cbStep (ρ := ρ) opts cs now (.error e) =
      ({ cs with failures := cs.failures + 1, lastFailureTime := now }, .err e) := by
  simp [cbStep, h]
  omega

theorem cbStep_closed_err_ge (opts : CBOptions) (cs : CBState) (now : Int) (e : ε)
    (h : cs.state = .closed) (hge : opts.failureThreshold ≤ cs.failures + 1) :
    cbStep (ρ := ρ) opts cs now (.error e) =
      (⟨cs.failures + 1, .open_, now⟩, .err e) := by
  simp [cbStep, h, hge]

/-- Number of failing settlements in a call sequence. -/
def countErr (events : List (Int × Except ε ρ)) : Nat :=
  (events.filter (fun p => isErr p.2)).length

theorem countErr_cons_ok (t : Int) (v : ρ) (rest : List (Int × Except ε ρ)) :
    countErr ((t, .ok v) :: rest) = countErr rest := by
  simp [countErr, isErr]

theorem countErr_cons_err (t : Int) (e : ε) (rest : List (Int × Except ε ρ)) :
    countErr ((t, .error e) :: rest) = countErr rest + 1 := by
  simp [countErr, isErr]

/-- While closed and below the threshold, failures accumulate across the
whole call sequence: successes do not reset the counter. -/
theorem cbRun_closed_acc (opts : CBOptions) (events : List (Int × Except ε ρ)) :
    ∀ cs : CBState, cs.state = .closed →
      cs.failures + countErr events < opts.failureThreshold →
      (cbRun opts cs events).1.state = .closed ∧
        (cbRun opts cs events).1.failures = cs.failures + countErr events := by
  induction events with
  | nil =>
    intro cs h _
    simpa [cbRun, countErr] using h
  | cons p rest ih =>
    obtain ⟨t, o⟩ := p
    intro cs h hlt
    cases o with
    | ok v =>
      rw [countErr_cons_ok] at hlt ⊢
      simpa [cbRun, cbStep_closed_ok opts cs t v h] using ih cs h hlt
    | error e =>
      rw [countErr_cons_err] at hlt ⊢
      have hlt' : cs.failures + 1 < opts.failureThreshold := by omega
      have := ih { cs with failures := cs.failures + 1, lastFailureTime := t }
        (by simp [h]) (by simpa using by omega)
      simp only [cbRun, cbStep_closed_err_lt opts cs t e h hlt']
      refine ⟨this.1, ?_⟩
      rw [this.2]
      simp
      omega

/-- A reset of the failure counter can only come from a successful call
observed in the half-open state (entered either earlier or lazily at this
call once `resetTimeout` has elapsed). -/
theorem cbStep_failures_reset (opts : CBOptions) (cs : CBState) (now : Int)
    (o : Except ε ρ) (hne : cs.failures ≠ 0)
    (h0 : (cbStep opts cs now o).1.failures = 0) :
    (∃ v, o = .ok v) ∧
      (cs.state = .halfOpen ∨
        (cs.state = .open_ ∧ opts.resetTimeout ≤ now - cs.lastFailureTime)) := by
  obtain ⟨f, st, lt⟩ := cs
  cases st with
  | closed =>
    cases o with
    | ok v => simp [cbStep] at h0; exact absurd h0 hne
    | error e =>
      exfalso
      simp only [cbStep] at h0
      split at h0
      · exact hne (by simpa using h0)
      · split at h0 <;> split at h0 <;> simp at h0
  | open_ =>
    by_cases htime : now - lt < opts.resetTimeout
    · simp [cbStep, htime] at h0
      exact absurd h0 hne
    · cases o with
      | ok v => exact ⟨⟨v, rfl⟩, .inr ⟨rfl, by simpa using by omega⟩⟩
      | error e =>
        exfalso
        simp only [cbStep] at h0
        split at h0
        · exact hne (by simpa using h0)
        · split at h0 <;> split at h0 <;> simp at h0
  | halfOpen =>
    cases o with
    | ok v => exact ⟨⟨v, rfl⟩, .inl rfl⟩
    | error e =>
      exfalso
      simp only [cbStep] at h0
      split at h0
      · exact hne (by simpa using h0)
      · split at h0 <;> split at h0 <;> simp at h0

/-- C1: with `failureThreshold = 3`, three consecutive failing calls drive
the breaker from its initial state to open; while open and before
`resetTimeout` has elapsed since the last failure every call is rejected
(the same `rejectedOpen` result for every possible settlement of the
underlying operation, which is therefore not invoked) and the state is
untouched; the first call once `resetTimeout` has elapsed goes through
(half-open) and on success resets `failureCount` to 0 and the state to
closed. -/
theorem circuitBreaker_threshold_open_halfOpen (rt t1 t2 t3 : Int)
    (e1 e2 e3 : String) (v : String) :
    (cbRun (ρ := String) ⟨3, rt⟩ cbInit
        [(t1, .error e1), (t2, .error e2), (t3, .error e3)]).1 = ⟨3, .open_, t3⟩ ∧
    (∀ (t : Int) (o : Except String String), t - t3 < rt →
        cbStep ⟨3, rt⟩ ⟨3, .open_, t3⟩ t o = (⟨3, .open_, t3⟩, .rejectedOpen)) ∧
    (∀ t : Int, rt ≤ t - t3 →
        cbStep (ε := String) ⟨3, rt⟩ ⟨3, .open_, t3⟩ t (.ok v) =
          (⟨0, .closed, t3⟩, .ok v)) := by
  refine ⟨?_, ?_, ?_⟩
  · simp [cbRun, cbStep, cbInit]
  · intro t o ht
    simp [cbStep, ht]
  · intro t ht
    have h1 : ¬ (t - t3 < rt) := by omega
    simp [cbStep, h1]

theorem circuitBreaker_threshold_open_halfOpen_witness :
    cbStep ⟨3, 100⟩ ⟨3, .open_, 2⟩ 50 (Except.ok (ε := String) "slow") =
      (⟨3, .open_, 2⟩, .rejectedOpen) ∧
    cbStep ⟨3, 100⟩ ⟨3, .open_, 2⟩ 102 (Except.ok (ε := String) "v") =
      (⟨0, .closed, 2⟩, .ok "v") := by
  obtain ⟨h1, h2, h3⟩ :=
    circuitBreaker_threshold_open_halfOpen 100 0 1 2 "e1" "e2" "e3" "v"
  exact ⟨h2 50 (.ok "slow") (by decide), h3 102 (by decide)⟩

/-- C10: a successful call in the closed state leaves `failureCount`
unchanged (the whole state is untouched); the counter is reset to 0 only
by a successful call observed in the half-open state; consequently
failures accumulate even when interleaved with successes, and the
breaker opens once `failureThreshold` failures have accumulated in
total. -/
theorem circuitBreaker_failure_accumulation (opts : CBOptions) :
    (∀ (cs : CBState) (now : Int) (v : String), cs.state = .closed →
        cbStep (ε := String) opts cs now (.ok v) = (cs, .ok v)) ∧
    (∀ (cs : CBState) (now : Int) (o : Except String String),
        cs.failures ≠ 0 → (cbStep opts cs now o).1.failures = 0 →
          (∃ v, o = .ok v) ∧
            (cs.state = .halfOpen ∨
              (cs.state = .open_ ∧ opts.resetTimeout ≤ now - cs.lastFailureTime))) ∧
    (∀ (events : List (Int × Except String String)) (cs : CBState),
        cs.state = .closed →
        cs.failures + countErr events < opts.failureThreshold →
          (cbRun opts cs events).1.state = .closed ∧
            (cbRun opts cs events).1.failures = cs.failures + countErr events) ∧
    (∀ (cs : CBState) (t : Int) (e : String),
        cs.state = .closed → opts.failureThreshold ≤ cs.failures + 1 →
          (cbStep (ρ := String) opts cs t (.error e)).1.state = .open_) := by
  refine ⟨fun cs now v h => cbStep_closed_ok opts cs now v h,
    fun cs now o hne h0 => cbStep_failures_reset opts cs now o hne h0,
    fun events cs h hlt => cbRun_closed_acc opts events cs h hlt,
    fun cs t e h hge => ?_⟩
  rw [cbStep_closed_err_ge opts cs t e h hge]

theorem circuitBreaker_failure_accumulation_witness :
    cbStep (ε := String) ⟨3, 100⟩ ⟨2, .closed, 5⟩ 10 (.ok "v") =
      (⟨2, .closed, 5⟩, .ok "v") ∧
    ((cbRun ⟨3, 100⟩ ⟨0, .closed, 0⟩
        ([(1, .error "f1"), (2, .ok "s1"), (3, .error "f2"), (4, .ok "s2")] :
          List (Int × Except String String))).1.state = .closed ∧
      (cbRun ⟨3, 100⟩ ⟨0, .closed, 0⟩
        ([(1, .error "f1"), (2, .ok "s1"), (3, .error "f2"), (4, .ok "s2")] :
          List (Int × Except String String))).1.failures = 0 + countErr
            ([(1, .error "f1"), (2, .ok "s1"), (3, .error "f2"), (4, .ok "s2")] :
              List (Int × Except String String))) ∧
    (cbStep (ρ := String) ⟨3, 100⟩ ⟨2, .closed, 3⟩ 5 (.error "f3")).1.state = .open_ := by
  obtain ⟨h1, _, h3, h4⟩ := circuitBreaker_failure_accumulation ⟨3, 100⟩
  refine ⟨h1 ⟨2, .closed, 5⟩ 10 "v" rfl,
    h3 [(1, .error "f1"), (2, .ok "s1"), (3, .error "f2"), (4, .ok "s2")]
      ⟨0, .closed, 0⟩ rfl (by decide),
    h4 ⟨2, .closed, 3⟩ 5 "f3" rfl (by decide)⟩

/-! ### Retry exhaustion -/

theorem retryGo_allFail (e : Nat → ε) : ∀ (r a : Nat),
    retryGo (ρ := ρ) (fun n => Except.error (e n)) a r =
      (.error (e (a + r)), r + 1, (List.range r).map fun i => (e (a + i), a + i)) := by
  intro r
  induction r with
  | zero => intro a; simp [retryGo]
  | succ r ih =>
    intro a
    simp only [retryGo, ih (a + 1)]
    rw [show a + (r + 1) = a + 1 + r by omega]
    rw [List.range_succ_eq_map, List.map_cons, List.map_map]
    have hfun : ((fun i => (e (a + i), a + i)) ∘ Nat.succ) =
        fun i => (e (a + 1 + i), a + 1 + i) := by
      funext i
      simp only [Function.comp_apply]
      rw [show a + Nat.succ i = a + 1 + i by omega]
    rw [hfun]
    simp

/-- C2: with `maxRetries = N`, an operation failing on every attempt is
invoked exactly `N + 1` times, `onRetry` is called exactly `N` times with
the strictly increasing attempt numbers `1, …, N` (each with that
attempt's error), and the wrapper finally rejects with the last
underlying error — the one produced by attempt `N + 1` — unchanged. -/
theorem retry_exhaustion_invocations (N : Nat) (e : Nat → ε) :
    retryCall (ρ := ρ) N (fun a => Except.error (e a)) =
      (.error (e (N + 1)), N + 1,
        (List.range N).map fun i => (e (i + 1), i + 1)) := by
  rw [retryCall, retryGo_allFail e N 1, Nat.add_comm 1 N]
  have hfun : (fun i => (e (1 + i), 1 + i)) = fun i => (e (i + 1), i + 1) := by
    funext i
    rw [Nat.add_comm 1 i]
  rw [hfun]

/-! ### Rate limiter (`RateLimited` in `src/src/decorators/method/validation.ts`)

State is a per-key list of request timestamps
(`rateLimitState : Map<string, number[]>`, key = class name + method
name); the model below tracks one key's record. -/

/-- `Math.min(...xs)` over a non-empty list.  (On an empty list JS gives
`Infinity`; that case is unreachable below because the rejection branch
guarantees `limit ≤ length` with `limit ≥ 1` at every use site.) -/
def listMin : List Int → Int
  | [] => 0
  | t :: ts => ts.foldl min t

/-- `Math.ceil(x / 1000)` on an integer number of milliseconds. -/
def ceilSeconds (x : Int) : Int := -((-x).fdiv 1000)

/-- The message of the error thrown when the window budget is exhausted. -/
def rateLimitMessage (methodName : String) (resetTime : Int) : String :=
  "Rate limit exceeded for " ++ methodName ++ ". " ++
    "Try again in " ++ toString (ceilSeconds resetTime) ++ " seconds."

/-- One wrapped call, mirroring `replacementMethod`: prune the record to
the sliding window (`timestamp > now - window` is kept), reject when the
pruned count has reached `limit` — computing the retry-after duration
`oldest + window - now` and leaving the stored record untouched, since
the source writes the record back only after the check — and otherwise
record `now`, store, and invoke the target (whose result is `op`). -/
def rateLimitedCall (limit : Nat) (window : Int) (methodName : String) (op : ρ)
    (timestamps : List Int) (now : Int) : List Int × Except String ρ :=
  let windowStart := now - window
  let ts := timestamps.filter (fun t => windowStart < t)
  if limit ≤ ts.length then
    let resetTime := listMin ts + window - now
    (timestamps, .error (rateLimitMessage methodName resetTime))
  else
    (ts ++ [now], .ok op)

/-- A sequence of calls at the given times against one key's record. -/
def rateLimitRun (limit : Nat) (window : Int) (methodName : String) (op : ρ) :
    List Int → List Int → List Int × List (Except String ρ)
  | ts, [] => (ts, [])
  | ts, now :: rest =>
    let s := rateLimitedCall limit window methodName op ts now
    let r := rateLimitRun limit window methodName op s.1 rest
    (r.1, s.2 :: r.2)

/-- C3: on each call the timestamps older than `now - window` are pruned
from the per-key record before the check; if the pruned count has reached
`limit` the call fails synchronously with a message starting
`Rate limit exceeded for <methodName>` carrying the retry-after duration
`oldest + window - now`, identically for every possible target result
(the target is not invoked); otherwise `now` is recorded and the target
is invoked.  With `{limit := 2, window := 100}` two calls succeed, a
third within the window throws, and a call after the window elapses
succeeds again. -/
theorem rateLimited_sliding_window (limit : Nat) (window : Int) (name : String)
    (timestamps : List Int) (now : Int) :
    (∀ t ∈ timestamps, t ≤ now - window →
        t ∉ timestamps.filter (fun t => now - window < t)) ∧
    (limit ≤ (timestamps.filter (fun t => now - window < t)).length →
      ∀ op : String,
        rateLimitedCall limit window name op timestamps now =
          (timestamps, .error (rateLimitMessage name
            (listMin (timestamps.filter (fun t => now - window < t)) + window - now))) ∧
        ∃ rest, rateLimitMessage name
            (listMin (timestamps.filter (fun t => now - window < t)) + window - now) =
          "Rate limit exceeded for " ++ name ++ rest) ∧
    ((timestamps.filter (fun t => now - window < t)).length < limit →
      ∀ op : String,
        rateLimitedCall limit window name op timestamps now =
          (timestamps.filter (fun t => now - window < t) ++ [now], .ok op)) ∧
    (rateLimitRun 2 100 "method" "result" [] [0, 10, 20, 150]).2 =
      [.ok "result", .ok "result",
        .error "Rate limit exceeded for method. Try again in 1 seconds.",
        .ok "result"] := by
  refine ⟨?_, ?_, ?_, ?_⟩
  · intro t _ hle
    simp only [List.mem_filter, decide_eq_true_eq, not_and]
    intro _
    omega
  · intro h op
    refine ⟨by simp [rateLimitedCall, h], ?_⟩
    exact ⟨". " ++ "Try again in " ++
      toString (ceilSeconds (listMin
        (timestamps.filter (fun t => now - window < t)) + window - now)) ++ " seconds.",
      by simp [rateLimitMessage, String.append_assoc]⟩
  · intro h op
    have h' : ¬ limit ≤ (timestamps.filter (fun t => now - window < t)).length := by
      omega
    simp [rateLimitedCall, h']
  · rfl

theorem rateLimited_sliding_window_witness :
    rateLimitedCall 2 100 "method" "result" [0, 10] 20 =
      ([0, 10], .error (rateLimitMessage "method" 80)) ∧
    rateLimitedCall 2 100 "method" "other" [0, 10] 150 = ([150], .ok "other") ∧
    (5 : Int) ∉ ([5, 80] : List Int).filter (fun t => (105 : Int) - 100 < t) := by
  obtain ⟨-, h2, -, -⟩ := rateLimited_sliding_window 2 100 "method" [0, 10] 20
  obtain ⟨-, -, h3, -⟩ := rateLimited_sliding_window 2 100 "method" [0, 10] 150
  obtain ⟨h1, -, -, -⟩ := rateLimited_sliding_window 2 100 "method" [5, 80] 105
  exact ⟨(h2 (by decide) "result").1, h3 (by decide) "other",
    h1 5 (by decide) (by decide)⟩

/-! ### Cache with TTL (`Cached` in `src/src/decorators/method/validation.ts`)

A module-level `cache : Map<string, CacheEntry>` shared by every wrapped
method, plus a per-decoration `methodCacheKeys : Set<string>` feeding the
generated `invalidate<Method>` member.  The `Map` is modelled as an
association list in which `set` prepends (lookups see the newest entry)
and `delete` drops every pair at the key. -/

structure CacheEntry (ρ : Type) where
  value : ρ
  expiry : Option Int
deriving DecidableEq, Repr

def cacheGet (c : List (String × CacheEntry ρ)) (k : String) :
    Option (CacheEntry ρ) :=
  (c.find? (fun p => p.1 == k)).map Prod.snd

def cacheSet (c : List (String × CacheEntry ρ)) (k : String) (v : CacheEntry ρ) :
    List (String × CacheEntry ρ) :=
  (k, v) :: c

def cacheDelete (c : List (String × CacheEntry ρ)) (k : String) :
    List (String × CacheEntry ρ) :=
  c.filter (fun p => !(p.1 == k))

structure CachedState (ρ : Type) where
  cache : List (String × CacheEntry ρ)
  methodKeys : List String
deriving DecidableEq, Repr

/-- `expiryTime ? Date.now() + expiryTime : undefined` — JS truthiness:
an absent `expiryTime` and the number 0 both count as unset. -/
def cachedExpiry (expiryTime : Option Int) (now : Int) : Option Int :=
  match expiryTime with
  | some e => if e = 0 then none else some (now + e)
  | none => none

/-- `!cached.expiry || cached.expiry > Date.now()` — truthiness again: a
stored expiry of 0 reads as "no expiry". -/
def entryFresh (entry : CacheEntry ρ) (now : Int) : Bool :=
  match entry.expiry with
  | none => true
  | some ex => ex == 0 || now < ex

/-- `methodCacheKeys.add(cacheKey)` (set semantics). -/
def keysAdd (ks : List String) (k : String) : List String :=
  if ks.contains k then ks else k :: ks

/-- One wrapped call, mirroring `replacementMethod`: remember the key for
invalidation, return a fresh entry's value without invoking, and on a
miss or a stale entry (which is deleted) invoke the target — producing
`op` — and store `{value, expiry}`.  The last component records whether
the target was invoked. -/
def cachedCall (expiryTime : Option Int) (cacheKey : String) (op : ρ) (now : Int)
    (s : CachedState ρ) : CachedState ρ × ρ × Bool :=
  let mk := keysAdd s.methodKeys cacheKey
  match cacheGet s.cache cacheKey with
  | some entry =>
    if entryFresh entry now then
      (⟨s.cache, mk⟩, entry.value, false)
    else
      (⟨cacheSet (cacheDelete s.cache cacheKey) cacheKey
          ⟨op, cachedExpiry expiryTime now⟩, mk⟩, op, true)
  | none =>
    (⟨cacheSet s.cache cacheKey ⟨op, cachedExpiry expiryTime now⟩, mk⟩, op, true)

/-- The generated `invalidate<Method>` member: delete every key this
decoration ever produced, then clear the key set. -/
def invalidateCache (s : CachedState ρ) : CachedState ρ :=
  ⟨s.cache.filter (fun p => !(decide (p.1 ∈ s.methodKeys))), []⟩

theorem cacheGet_set_self (c : List (String × CacheEntry ρ)) (k : String)
    (v : CacheEntry ρ) : cacheGet (cacheSet c k v) k = some v := by
  simp [cacheGet, cacheSet]

/-- C4: a call whose key holds an unexpired entry (no expiry, or expiry
in the future) returns the stored value without invoking the target and
leaves the cache unchanged; a call on a miss or on a stale entry invokes
the target and stores `{value, expiry = now + expiryTime}` when a
(positive) `expiryTime` is configured and no expiry otherwise; and after
the generated invalidation method runs, every previously produced key is
gone, so the next call for it recomputes. -/
theorem cached_ttl_and_invalidation (expiryTime : Option Int) (k : String)
    (op : String) (now : Int) (s : CachedState String) :
    (∀ entry, cacheGet s.cache k = some entry →
      (entry.expiry = none ∨ ∃ ex, entry.expiry = some ex ∧ now < ex) → 0 ≤ now →
      cachedCall expiryTime k op now s =
        (⟨s.cache, keysAdd s.methodKeys k⟩, entry.value, false)) ∧
    (cacheGet s.cache k = none →
      (expiryTime = none ∨ ∃ e, expiryTime = some e ∧ 0 < e) →
      (cachedCall expiryTime k op now s).2.1 = op ∧
      (cachedCall expiryTime k op now s).2.2 = true ∧
      cacheGet (cachedCall expiryTime k op now s).1.cache k =
        some ⟨op, expiryTime.map (now + ·)⟩) ∧
    (∀ entry ex, cacheGet s.cache k = some entry → entry.expiry = some ex →
      0 < ex → ex ≤ now →
      (expiryTime = none ∨ ∃ e, expiryTime = some e ∧ 0 < e) →
      (cachedCall expiryTime k op now s).2.1 = op ∧
      (cachedCall expiryTime k op now s).2.2 = true ∧
      cacheGet (cachedCall expiryTime k op now s).1.cache k =
        some ⟨op, expiryTime.map (now + ·)⟩) ∧
    (∀ k' ∈ s.methodKeys,
      cacheGet (invalidateCache s).cache k' = none ∧
      (cachedCall expiryTime k' op now (invalidateCache s)).2.2 = true) := by
  have hexpiry : (expiryTime = none ∨ ∃ e, expiryTime = some e ∧ 0 < e) →
      cachedExpiry expiryTime now = expiryTime.map (now + ·) := by
    rintro (h | ⟨e, he, hpos⟩)
    · simp [cachedExpiry, h]
    · simp [cachedExpiry, he]
      omega
  refine ⟨?_, ?_, ?_, ?_⟩
  · intro entry hget hfr hnow
    have hfresh : entryFresh entry now = true := by
      rcases hfr with h | ⟨ex, hex, hlt⟩
      · simp [entryFresh, h]
      · simp [entryFresh, hex, hlt]
    simp [cachedCall, hget, hfresh]
  · intro hget hexp
    simp [cachedCall, hget, hexpiry hexp, cacheGet_set_self]
  · intro entry ex hget hex hpos hle hexp
    have hfresh : entryFresh entry now = false := by
      simp [entryFresh, hex]
      omega
    simp [cachedCall, hget, hfresh, hexpiry hexp, cacheGet_set_self]
  · intro k' hk
    have hnone : cacheGet (invalidateCache s).cache k' = none := by
      simp only [cacheGet, invalidateCache, Option.map_eq_none']
      rw [List.find?_eq_none]
      intro p hp hbeq
      rcases List.mem_filter.mp hp with ⟨-, hq⟩
      have hpk : p.1 = k' := by simpa using hbeq
      simp only [Bool.not_eq_true', decide_eq_false_iff_not] at hq
      exact hq (hpk ▸ hk)
    exact ⟨hnone, by simp [cachedCall, hnone]⟩

theorem cached_ttl_and_invalidation_witness :
    cachedCall (some 5) "k1" "op" 10 ⟨[("k1", ⟨"v1", some 20⟩)], ["k1"]⟩ =
      (⟨[("k1", ⟨"v1", some 20⟩)], ["k1"]⟩, "v1", false) ∧
    cacheGet (cachedCall (some 5) "k2" "op" 10
        (⟨[], []⟩ : CachedState String)).1.cache "k2" = some ⟨"op", some 15⟩ ∧
    cacheGet (invalidateCache
        (⟨[("k1", ⟨"v1", some 20⟩)], ["k1"]⟩ : CachedState String)).cache "k1" =
      none := by
  obtain ⟨ha, -, -, -⟩ :=
    cached_ttl_and_invalidation (some 5) "k1" "op" 10 ⟨[("k1", ⟨"v1", some 20⟩)], ["k1"]⟩
  obtain ⟨-, hb, -, -⟩ :=
    cached_ttl_and_invalidation (some 5) "k2" "op" 10 (⟨[], []⟩ : CachedState String)
  obtain ⟨-, -, -, hd⟩ :=
    cached_ttl_and_invalidation (some 5) "k1" "op" 10 ⟨[("k1", ⟨"v1", some 20⟩)], ["k1"]⟩
  refine ⟨?_, ?_, ?_⟩
  · have := ha ⟨"v1", some 20⟩ rfl (Or.inr ⟨20, rfl, by decide⟩) (by decide)
    simpa using this
  · exact (hb rfl (Or.inr ⟨5, rfl, by decide⟩)).2.2
  · exact (hd "k1" (by decide)).1

/-! ### Timeout (`Timeout` in `src/unnamed/part_002`)

`Promise.race([methodPromise, timeoutPromise])` where `timeoutPromise`
rejects after `ms` with `` `${methodName} timed out after ${ms}ms` ``.
`tSettle` is the instant at which the underlying operation's settlement
would occur and `outcome` what it settles to; the race takes the earlier
event.  (A dead heat `tSettle = ms` is resolved here in favour of the
timer; the properties proved below only constrain the strict orders.) -/

def timeoutRace (ms : Int) (methodName : String) (tSettle : Int)
    (outcome : Except String ρ) : Except String ρ :=
  if tSettle < ms then outcome
  else .error (methodName ++ " timed out after " ++ toString ms ++ "ms")

/-- C5: an operation settling before the deadline has its settlement
returned unchanged; if the deadline fires first the wrapper rejects with
`<name> timed out after <ms>ms`, and it does so identically for every
eventual settlement of the slow operation — the abandoned settlement
value never surfaces to the caller. -/
theorem timeout_race_first_settlement (ms : Int) (name : String) (tSettle : Int) :
    (∀ outcome : Except String String, tSettle < ms →
        timeoutRace ms name tSettle outcome = outcome) ∧
    (ms < tSettle → ∀ outcome : Except String String,
        timeoutRace ms name tSettle outcome =
          .error (name ++ " timed out after " ++ toString ms ++ "ms")) ∧
    (ms < tSettle → ∀ o₁ o₂ : Except String String,
        timeoutRace ms name tSettle o₁ = timeoutRace ms name tSettle o₂) := by
  refine ⟨fun o h => by simp [timeoutRace, h], fun h o => ?_, fun h o₁ o₂ => ?_⟩
  · have h' : ¬ tSettle < ms := by omega
    simp [timeoutRace, h']
  · have h' : ¬ tSettle < ms := by omega
    simp [timeoutRace, h']

theorem timeout_race_first_settlement_witness :
    timeoutRace 100 "fetch" 10 (Except.ok (α := String) "v") = .ok "v" ∧
    timeoutRace 100 "fetch" 150 (Except.ok (α := String) "late") =
      .error "fetch timed out after 100ms" := by
  obtain ⟨h1, h2, -⟩ := timeout_race_first_settlement 100 "fetch" 10
  obtain ⟨-, h2', -⟩ := timeout_race_first_settlement 100 "fetch" 150
  exact ⟨h1 (.ok "v") (by decide), h2' (by decide) (.ok "late")⟩

/-- Ledger of the timer handles a wrapper armed (`setTimeout`) and
cleared (`clearTimeout`) during one call. -/
structure TimerLog where
  armed : List Nat
  cleared : List Nat
deriving DecidableEq, Repr

/-- Handles armed but never cleared. -/
def danglingTimers (log : TimerLog) : List Nat :=
  log.armed.filter (fun h => !(decide (h ∈ log.cleared)))

/-- Timer bookkeeping of the `Timeout` wrapper.  `replacementMethod`
arms exactly one `setTimeout` handle (handle 0 in this model) for the
deadline, and no path of the wrapper ever calls `clearTimeout`, whatever
the deadline `ms` and the operation's settle time `tSettle`. -/
def timeoutTimerLog (ms tSettle : Int) : TimerLog := ⟨[0], []⟩

/-- C6 (violated by the code): after the operation wins the race — here a
`Timeout(100)`-wrapped operation settling at `t = 10` — the deadline
timer is still armed, because the wrapper never clears it: a dangling
timer reference remains, contradicting the claim that the timer is
disarmed when the operation wins. -/
theorem timeout_timer_never_cleared :
    (10 : Int) < 100 ∧ danglingTimers (timeoutTimerLog 100 10) = [0] := by decide

/-! ### Scheduling cleanup (`cleanup` in `src/unnamed/part_001`)

`@Schedule`, `@Interval` and the delayed-execution `@Timeout` decorators
each lazily create a per-instance `Map` of handles (cron jobs, interval
timers, timeout timers) keyed by method name; `cleanup(instance)` stops
every handle of each existing map and clears the maps; absent maps are
skipped.  Handles are modelled by their ids; `none` is a map that was
never created. -/

structure SchedState where
  cronJobs : Option (List Nat)
  intervals : Option (List Nat)
  timeouts : Option (List Nat)
deriving DecidableEq, Repr

/-- Clean one of the three collections: stop every stored handle
(returned as the list of emitted stop/clear calls) and `clear()` the map;
a map that does not exist is left untouched and nothing is stopped. -/
def cleanupComp : Option (List Nat) → Option (List Nat) × List Nat
  | none => (none, [])
  | some hs => (some [], hs)

/-- `cleanup(instance)`: returns the new instance state and the handles
stopped, in source order (cron jobs, then intervals, then timeouts). -/
def cleanup (s : SchedState) : SchedState × List Nat :=
  let c := cleanupComp s.cronJobs
  let i := cleanupComp s.intervals
  let t := cleanupComp s.timeouts
  (⟨c.1, i.1, t.1⟩, c.2 ++ i.2 ++ t.2)

/-- Handles currently registered on an instance. -/
def registeredHandles (s : SchedState) : List Nat :=
  s.cronJobs.getD [] ++ s.intervals.getD [] ++ s.timeouts.getD []

/-- C9: one `cleanup` call stops exactly the registered cron, interval
and timeout handles (each handle once); running `cleanup` again on the
resulting state stops nothing and changes nothing, and `cleanup` on an
instance that never registered any handle is a no-op — cleanup after
cleanup equals cleanup, and the call never fails. -/
theorem cleanup_idempotent_stops_all (s : SchedState) :
    (cleanup s).2 = registeredHandles s ∧
    cleanup (cleanup s).1 = ((cleanup s).1, []) ∧
    cleanup ⟨none, none, none⟩ = (⟨none, none, none⟩, []) := by
  obtain ⟨c, i, t⟩ := s
  refine ⟨?_, ?_, rfl⟩
  · cases c <;> cases i <;> cases t <;> simp [cleanup, cleanupComp, registeredHandles]
  · cases c <;> cases i <;> cases t <;> rfl

/-! ### Debounce (`DebounceSync` in `src/unnamed/part_002`)

Each call clears the timer stored in `timeoutMap` for its key and
returns a fresh promise whose `resolve` lives inside the newly armed
`setTimeout` callback; only that callback can settle the promise, so a
caller whose timer is cleared by a later call is left with a promise
that never settles.  The model below processes calls in time order for a
single key; a pending timer is `(fireTime, caller index, args)`.
Settlements are `(caller index, resolved value)` pairs; an index absent
from the output is a promise left pending forever. -/

structure DebPending (α : Type) where
  fireTime : Int
  idx : Nat
  args : α
deriving DecidableEq, Repr

/-- One debounced call at time `t`: a previously armed timer whose
deadline has passed already fired, executing the target and resolving
its caller's promise; a timer still pending is `clearTimeout`-ed — the
promise it would have resolved stays pending forever.  The call then
arms a timer for `t + delay` that will resolve this caller's promise
with the target applied to these `args`. -/
def debStep (delay : Int) (f : α → ρ)
    (st : Option (DebPending α) × List (Nat × ρ)) (idx : Nat) (t : Int) (args : α) :
    Option (DebPending α) × List (Nat × ρ) :=
  let fired :=
    match st.1 with
    | some p =>
      if p.fireTime ≤ t then (none, st.2 ++ [(p.idx, f p.args)])
      else (some p, st.2)
    | none => (none, st.2)
  (some ⟨t + delay, idx, args⟩, fired.2)

def debRunGo (delay : Int) (f : α → ρ) :
    Nat → Option (DebPending α) × List (Nat × ρ) → List (Int × α) →
      Option (DebPending α) × List (Nat × ρ)
  | _, st, [] => st
  | idx, st, c :: rest =>
    debRunGo delay f (idx + 1) (debStep delay f st idx c.1 c.2) rest

/-- All calls `(time, args)` processed in time order and the event loop
then drained: the still-armed timer, if any, fires and resolves its
caller's promise. -/
def debounceRun (delay : Int) (f : α → ρ) (calls : List (Int × α)) :
    List (Nat × ρ) :=
  let st := debRunGo delay f 0 (none, []) calls
  match st.1 with
  | some p => st.2 ++ [(p.idx, f p.args)]
  | none => st.2

/-- A burst: every call arrives strictly within `delay` of its
predecessor, so each one supersedes the previous pending timer. -/
def burst (delay : Int) : List (Int × α) → Bool
  | [] => true
  | [_] => true
  | (t1, _) :: (t2, a2) :: rest =>
    decide (t2 < t1 + delay) && burst delay ((t2, a2) :: rest)

/-- C7 (violated by the code): with `delay = 100` and two calls at times
0 and 10 — both inside one delay window, so only the second call's
arguments execute — the run settles only the second caller's promise
(with the real execution's outcome); the superseded first caller never
receives the outcome `"b"` of the one real invocation, because clearing
its timer destroyed the only reference to its `resolve`. -/
theorem debounce_superseded_never_resolved :
    debounceRun 100 (fun s : String => s) [(0, "a"), (10, "b")] = [(1, "b")] ∧
    (0, "b") ∉ debounceRun 100 (fun s : String => s) [(0, "a"), (10, "b")] := by
  decide

theorem debRunGo_burst (delay : Int) (f : α → ρ) :
    ∀ (calls : List (Int × α)) (k : Nat) (t0 : Int) (a0 : α)
      (settled : List (Nat × ρ)),
      burst delay ((t0, a0) :: calls) = true →
      debRunGo delay f (k + 1) (some ⟨t0 + delay, k, a0⟩, settled) calls =
        (some ⟨(((t0, a0) :: calls).getLast (List.cons_ne_nil _ _)).1 + delay,
          k + calls.length,
          (((t0, a0) :: calls).getLast (List.cons_ne_nil _ _)).2⟩, settled) := by
  intro calls
  induction calls with
  | nil =>
    intro k t0 a0 settled _
    simp [debRunGo]
  | cons c rest ih =>
    obtain ⟨t1, a1⟩ := c
    intro k t0 a0 settled hb
    have hb1 : t1 < t0 + delay := by
      simp only [burst, Bool.and_eq_true, decide_eq_true_eq] at hb
      exact hb.1
    have hb2 : burst delay ((t1, a1) :: rest) = true := by
      simp only [burst, Bool.and_eq_true] at hb
      exact hb.2
    have hnf : ¬ (t0 + delay ≤ t1) := by omega
    rw [debRunGo]
    have hstep : debStep delay f (some ⟨t0 + delay, k, a0⟩, settled) (k + 1) t1 a1 =
        (some ⟨t1 + delay, k + 1, a1⟩, settled) := by
      simp [debStep, hnf]
    rw [hstep, ih (k + 1) t1 a1 settled hb2]
    rw [List.getLast_cons (List.cons_ne_nil _ _)]
    simp
    omega

/-- C7 amended: every call returns a deferred value, but when several
calls arrive within the delay window only the final call's deferred
value ever settles — it resolves to the outcome of the one real
invocation (the target applied to the last call's arguments) — while
every superseded caller's deferred value is left pending forever. -/
theorem debounce_only_last_caller_settles (delay : Int) (f : α → ρ) (t0 : Int)
    (a0 : α) (calls : List (Int × α))
    (hb : burst delay ((t0, a0) :: calls) = true) :
    debounceRun delay f ((t0, a0) :: calls) =
      [(calls.length, f (((t0, a0) :: calls).getLast (List.cons_ne_nil _ _)).2)] := by
  have h0 : debStep delay f (none, []) 0 t0 a0 = (some ⟨t0 + delay, 0, a0⟩, []) := by
    simp [debStep]
  rw [debounceRun, debRunGo, h0, debRunGo_burst delay f calls 0 t0 a0 [] hb]
  simp

theorem debounce_only_last_caller_settles_witness :
    debounceRun 100 (fun s : String => s) [(0, "a"), (10, "b"), (20, "c")] =
      [(2, "c")] := by
  have h := debounce_only_last_caller_settles 100 (fun s : String => s) 0 "a"
    [(10, "b"), (20, "c")] (by decide)
  simpa using h

/-! ### Debounce keying across instances

`DebounceSync` stores its pending timers in one `timeoutMap` shared by
the whole decoration, under the key
`` `${this.constructor.name}.${methodName}` `` — the owner's *class
name*, not the instance, enters the key.  The keyed model below carries
the calling instance (`instId`) so that cross-instance interference is
observable; the target runs with the arming call's receiver,
`f instId args`. -/

structure DebCall (α : Type) where
  className : String
  instId : Nat
  time : Int
  args : α
deriving DecidableEq, Repr

/-- The timer key: `${this.constructor.name}.${methodName}`. -/
def debounceKeyOf (className methodName : String) : String :=
  className ++ "." ++ methodName

structure DebPendingK (α : Type) where
  fireTime : Int
  idx : Nat
  instId : Nat
  args : α
deriving DecidableEq, Repr

/-- Advance the event loop to time `t`: every armed timer (any key)
whose deadline has passed fires, executing the target on its recorded
receiver and arguments and resolving its caller's promise. -/
def fireDue (f : Nat → α → ρ) (t : Int)
    (pmap : List (String × DebPendingK α)) (settled : List (Nat × ρ)) :
    List (String × DebPendingK α) × List (Nat × ρ) :=
  (pmap.filter (fun p => !(decide (p.2.fireTime ≤ t))),
    settled ++ (pmap.filter (fun p => decide (p.2.fireTime ≤ t))).map
      (fun p => (p.2.idx, f p.2.instId p.2.args)))

/-- One keyed debounced call: fire what is due, `clearTimeout` the timer
stored under this call's key (whose promise then never settles), arm a
fresh timer under the key. -/
def debStepK (delay : Int) (f : Nat → α → ρ) (methodName : String)
    (st : List (String × DebPendingK α) × List (Nat × ρ)) (idx : Nat)
    (c : DebCall α) : List (String × DebPendingK α) × List (Nat × ρ) :=
  let key := debounceKeyOf c.className methodName
  let fired := fireDue f c.time st.1 st.2
  (fired.1.filter (fun p => !(p.1 == key)) ++
      [(key, ⟨c.time + delay, idx, c.instId, c.args⟩)],
    fired.2)

def debRunGoK (delay : Int) (f : Nat → α → ρ) (methodName : String) :
    Nat → List (String × DebPendingK α) × List (Nat × ρ) → List (DebCall α) →
      List (String × DebPendingK α) × List (Nat × ρ)
  | _, st, [] => st
  | idx, st, c :: rest =>
    debRunGoK delay f methodName (idx + 1) (debStepK delay f methodName st idx c) rest

/-- Calls processed in time order, then the event loop drained: every
remaining timer fires. -/
def debounceRunK (delay : Int) (f : Nat → α → ρ) (methodName : String)
    (calls : List (DebCall α)) : List (Nat × ρ) :=
  let st := debRunGoK delay f methodName 0 ([], []) calls
  st.2 ++ st.1.map (fun p => (p.2.idx, f p.2.instId p.2.args))

/-- C8 (violated by the code): with `delay = 100`, instance 1 of class
`C` calls at `t = 0` and a *different* instance 2 of the same class
calls at `t = 10`.  Because the timer key is the class name plus the
method name, the second instance's call cancels the first instance's
pending debounced execution: the run settles only caller 1 (executing on
instance 2), and the first instance's execution — which under the claim
would fire at `t = 100` with receiver 1 and arguments `"a"` — never
happens. -/
theorem debounce_key_shared_across_instances :
    debounceRunK 100 (fun inst (s : String) => (inst, s)) "m"
      [⟨"C", 1, 0, "a"⟩, ⟨"C", 2, 10, "b"⟩] = [(1, (2, "b"))] ∧
    (0, (1, "a")) ∉ debounceRunK 100 (fun inst (s : String) => (inst, s)) "m"
      [⟨"C", 1, 0, "a"⟩, ⟨"C", 2, 10, "b"⟩] := by
  decide

/-- C8 amended: debounce state is keyed per (class name, operation
name).  A call within the delay window cancels and replaces the pending
timer of the same class and operation even when that timer was armed by
a different instance of the same class — only the later call executes,
on the later call's receiver; whereas calls whose keys differ (distinct
class names) keep independent pending timers and both execute. -/
theorem debounce_per_class_and_method_key (delay : Int) (f : Nat → α → ρ)
    (m c1 c2 : String) (i1 i2 : Nat) (t1 t2 : Int) (a1 a2 : α) :
    (t2 < t1 + delay →
      debounceRunK delay f m [⟨c1, i1, t1, a1⟩, ⟨c1, i2, t2, a2⟩] =
        [(1, f i2 a2)]) ∧
    (debounceKeyOf c1 m ≠ debounceKeyOf c2 m → t2 < t1 + delay →
      debounceRunK delay f m [⟨c1, i1, t1, a1⟩, ⟨c2, i2, t2, a2⟩] =
        [(0, f i1 a1), (1, f i2 a2)]) := by
  constructor
  · intro hwin
    have hnf : ¬ (t1 + delay ≤ t2) := by omega
    simp [debounceRunK, debRunGoK, debStepK, fireDue, hnf]
  · intro hne hwin
    have hnf : ¬ (t1 + delay ≤ t2) := by omega
    have hbeq : (debounceKeyOf c1 m == debounceKeyOf c2 m) = false := by
      simpa using hne
    simp [debounceRunK, debRunGoK, debStepK, fireDue, hnf, hbeq]

theorem debounce_per_class_and_method_key_witness :
    debounceRunK 100 (fun inst (s : String) => (inst, s)) "m"
      [⟨"C", 7, 0, "a"⟩, ⟨"C", 8, 10, "b"⟩] = [(1, (8, "b"))] ∧
    debounceRunK 100 (fun inst (s : String) => (inst, s)) "m"
      [⟨"C", 7, 0, "a"⟩, ⟨"D", 8, 10, "b"⟩] = [(0, (7, "a")), (1, (8, "b"))] := by
  obtain ⟨h1, -⟩ := debounce_per_class_and_method_key 100
    (fun inst (s : String) => (inst, s)) "m" "C" "C" 7 8 0 10 "a" "b"
  obtain ⟨-, h2⟩ := debounce_per_class_and_method_key 100
    (fun inst (s : String) => (inst, s)) "m" "C" "D" 7 8 0 10 "a" "b"
  exact ⟨h1 (by decide), h2 (by decide) (by decide)⟩

end Bling
